import Mathlib

/-!
Shallow embedding of `anypython.py`, a script that runs another script
through many versions of Python to check compatibility, together with
proofs about its version matcher, table renderer, run/hash pipeline and
selection logic.

Python strings are embedded as `String`, byte strings as `List Nat`
(one `Nat` per byte), child exit codes as `Int`.  Python operations that
can raise (`max()` on an empty sequence, list indexing out of range) are
embedded in `Option`, with `none` exactly where the Python raises.
-/

namespace AnyPython

/-! ### Python string primitives

Helpers mirroring the Python string operations the script uses.  They are
written over `List Char` so that every definition reduces in the kernel.
-/

/-- Python's `sep.join(parts)` for a list of strings. -/
def pyJoin (sep : String) : List String → String
  | [] => ""
  | [x] => x
  | x :: y :: rest => x ++ sep ++ pyJoin sep (y :: rest)

/-- Python's `s[:n]` slice of a string. -/
def pyTake (s : String) (n : Nat) : String := String.mk (s.data.take n)

/-- Python's `s.replace(".", "")`: the string with every dot removed. -/
def pyRemoveDots (s : String) : String := String.mk (s.data.filter (fun c => c != '.'))

/-- Python's `s.ljust(w)`: pad with spaces on the right up to width `w`
(unchanged when already at least `w` long). -/
def pyLjust (s : String) (w : Nat) : String :=
  s ++ String.mk (List.replicate (w - s.length) ' ')

/-- Python's `s.rjust(w)`: pad with spaces on the left up to width `w`. -/
def pyRjust (s : String) (w : Nat) : String :=
  String.mk (List.replicate (w - s.length) ' ') ++ s

/-- Python's `s.split(sep)` for a one-character separator, on the
character list: splitting keeps empty groups, as Python does. -/
def pySplitChars (sep : Char) : List Char → List (List Char)
  | [] => [[]]
  | c :: cs =>
      match pySplitChars sep cs with
      | [] => [[]]
      | g :: gs => if c = sep then [] :: g :: gs else (c :: g) :: gs

/-- Python's `s.split(sep)` for a one-character separator. -/
def pySplit (s : String) (sep : Char) : List String :=
  (pySplitChars sep s.data).map String.mk

/-- Python's `int(s)` on a string of decimal digits.  The script only
ever applies it to the digit segments of a version string; non-digit
input (where Python would raise `ValueError`) is not modelled. -/
def pyDigitsToNat (s : String) : Nat :=
  s.data.foldl (fun acc c => acc * 10 + (c.toNat - 48)) 0

/-! ### SHA-512

The script fingerprints child stdout with `hashlib.sha512`.  The hash is
embedded in full (FIPS 180-4), over byte lists, with 64-bit words as
`Nat` reduced mod `2 ^ 64`, so that concrete digests are computable by
the kernel.
-/

/-- 2 ^ 64, the word modulus of SHA-512. -/
def W64MOD : Nat := 18446744073709551616

/-- Reduce to a 64-bit word. -/
def w64 (n : Nat) : Nat := n % W64MOD

/-- Right-rotation of a 64-bit word by `k` bits. -/
def rotr64 (k n : Nat) : Nat := w64 ((n >>> k) ||| (n <<< (64 - k)))

/-- Bitwise complement of a 64-bit word. -/
def not64 (n : Nat) : Nat := n ^^^ (W64MOD - 1)

/-- SHA-512 big Sigma-0. -/
def bigSigma0 (x : Nat) : Nat := rotr64 28 x ^^^ rotr64 34 x ^^^ rotr64 39 x

/-- SHA-512 big Sigma-1. -/
def bigSigma1 (x : Nat) : Nat := rotr64 14 x ^^^ rotr64 18 x ^^^ rotr64 41 x

/-- SHA-512 small sigma-0. -/
def smallSigma0 (x : Nat) : Nat := rotr64 1 x ^^^ rotr64 8 x ^^^ (x >>> 7)

/-- SHA-512 small sigma-1. -/
def smallSigma1 (x : Nat) : Nat := rotr64 19 x ^^^ rotr64 61 x ^^^ (x >>> 6)

/-- SHA-512 choice function. -/
def chFn (e f g : Nat) : Nat := (e &&& f) ^^^ (not64 e &&& g)

/-- SHA-512 majority function. -/
def majFn (a b c : Nat) : Nat := (a &&& b) ^^^ (a &&& c) ^^^ (b &&& c)

/-- A 64-bit constant assembled from its 32-bit halves. -/
def hiLo (hi lo : Nat) : Nat := hi * 4294967296 + lo

/-- The 80 SHA-512 round constants (FIPS 180-4, section 4.2.3), each
written as its two 32-bit halves. -/
def SHA512K : List Nat := [
  hiLo 0x428a2f98 0xd728ae22, hiLo 0x71374491 0x23ef65cd,
  hiLo 0xb5c0fbcf 0xec4d3b2f, hiLo 0xe9b5dba5 0x8189dbbc,
  hiLo 0x3956c25b 0xf348b538, hiLo 0x59f111f1 0xb605d019,
  hiLo 0x923f82a4 0xaf194f9b, hiLo 0xab1c5ed5 0xda6d8118,
  hiLo 0xd807aa98 0xa3030242, hiLo 0x12835b01 0x45706fbe,
  hiLo 0x243185be 0x4ee4b28c, hiLo 0x550c7dc3 0xd5ffb4e2,
  hiLo 0x72be5d74 0xf27b896f, hiLo 0x80deb1fe 0x3b1696b1,
  hiLo 0x9bdc06a7 0x25c71235, hiLo 0xc19bf174 0xcf692694,
  hiLo 0xe49b69c1 0x9ef14ad2, hiLo 0xefbe4786 0x384f25e3,
  hiLo 0x0fc19dc6 0x8b8cd5b5, hiLo 0x240ca1cc 0x77ac9c65,
  hiLo 0x2de92c6f 0x592b0275, hiLo 0x4a7484aa 0x6ea6e483,
  hiLo 0x5cb0a9dc 0xbd41fbd4, hiLo 0x76f988da 0x831153b5,
  hiLo 0x983e5152 0xee66dfab, hiLo 0xa831c66d 0x2db43210,
  hiLo 0xb00327c8 0x98fb213f, hiLo 0xbf597fc7 0xbeef0ee4,
  hiLo 0xc6e00bf3 0x3da88fc2, hiLo 0xd5a79147 0x930aa725,
  hiLo 0x06ca6351 0xe003826f, hiLo 0x14292967 0x0a0e6e70,
  hiLo 0x27b70a85 0x46d22ffc, hiLo 0x2e1b2138 0x5c26c926,
  hiLo 0x4d2c6dfc 0x5ac42aed, hiLo 0x53380d13 0x9d95b3df,
  hiLo 0x650a7354 0x8baf63de, hiLo 0x766a0abb 0x3c77b2a8,
  hiLo 0x81c2c92e 0x47edaee6, hiLo 0x92722c85 0x1482353b,
  hiLo 0xa2bfe8a1 0x4cf10364, hiLo 0xa81a664b 0xbc423001,
  hiLo 0xc24b8b70 0xd0f89791, hiLo 0xc76c51a3 0x0654be30,
  hiLo 0xd192e819 0xd6ef5218, hiLo 0xd6990624 0x5565a910,
  hiLo 0xf40e3585 0x5771202a, hiLo 0x106aa070 0x32bbd1b8,
  hiLo 0x19a4c116 0xb8d2d0c8, hiLo 0x1e376c08 0x5141ab53,
  hiLo 0x2748774c 0xdf8eeb99, hiLo 0x34b0bcb5 0xe19b48a8,
  hiLo 0x391c0cb3 0xc5c95a63, hiLo 0x4ed8aa4a 0xe3418acb,
  hiLo 0x5b9cca4f 0x7763e373, hiLo 0x682e6ff3 0xd6b2b8a3,
  hiLo 0x748f82ee 0x5defb2fc, hiLo 0x78a5636f 0x43172f60,
  hiLo 0x84c87814 0xa1f0ab72, hiLo 0x8cc70208 0x1a6439ec,
  hiLo 0x90befffa 0x23631e28, hiLo 0xa4506ceb 0xde82bde9,
  hiLo 0xbef9a3f7 0xb2c67915, hiLo 0xc67178f2 0xe372532b,
  hiLo 0xca273ece 0xea26619c, hiLo 0xd186b8c7 0x21c0c207,
  hiLo 0xeada7dd6 0xcde0eb1e, hiLo 0xf57d4f7f 0xee6ed178,
  hiLo 0x06f067aa 0x72176fba, hiLo 0x0a637dc5 0xa2c898a6,
  hiLo 0x113f9804 0xbef90dae, hiLo 0x1b710b35 0x131c471b,
  hiLo 0x28db77f5 0x23047d84, hiLo 0x32caab7b 0x40c72493,
  hiLo 0x3c9ebe0a 0x15c9bebc, hiLo 0x431d67c4 0x9c100d4c,
  hiLo 0x4cc5d4be 0xcb3e42b6, hiLo 0x597f299c 0xfc657e2a,
  hiLo 0x5fcb6fab 0x3ad6faec, hiLo 0x6c44198c 0x4a475817]

/-- The SHA-512 initial hash value (FIPS 180-4, section 5.3.5). -/
def SHA512H0 : List Nat := [
  0x6a09e667f3bcc908, 0xbb67ae8584caa73b, 0x3c6ef372fe94f82b, 0xa54ff53a5f1d36f1,
  0x510e527fade682d1, 0x9b05688c2b3e6c1f, 0x1f83d9abfb41bd6b, 0x5be0cd19137e2179]

/-- Pack big-endian 8-byte groups into 64-bit words. -/
def bytesToWords : List Nat → List Nat
  | b0 :: b1 :: b2 :: b3 :: b4 :: b5 :: b6 :: b7 :: rest =>
      (b0 <<< 56 ||| b1 <<< 48 ||| b2 <<< 40 ||| b3 <<< 32 |||
       b4 <<< 24 ||| b5 <<< 16 ||| b6 <<< 8 ||| b7) :: bytesToWords rest
  | _ => []

/-- Extend the 16 message words of a block to the 80 schedule words. -/
def extendSchedule (ws : List Nat) : List Nat :=
  (List.range 64).foldl
    (fun acc _ =>
      let n := acc.length
      acc ++ [w64 (smallSigma1 (acc.getD (n - 2) 0) + acc.getD (n - 7) 0 +
                   smallSigma0 (acc.getD (n - 15) 0) + acc.getD (n - 16) 0)])
    ws

/-- The eight working variables of the SHA-512 compression function. -/
structure Sha512State where
  a : Nat
  b : Nat
  c : Nat
  d : Nat
  e : Nat
  f : Nat
  g : Nat
  h : Nat

/-- One round of the SHA-512 compression function. -/
def roundStep (w k : Nat) (s : Sha512State) : Sha512State :=
  let t1 := w64 (s.h + bigSigma1 s.e + chFn s.e s.f s.g + k + w)
  let t2 := w64 (bigSigma0 s.a + majFn s.a s.b s.c)
  { a := w64 (t1 + t2), b := s.a, c := s.b, d := s.c,
    e := w64 (s.d + t1), f := s.e, g := s.f, h := s.g }

/-- Compress one 128-byte block into the running hash (eight words). -/
def compressBlock (hs : List Nat) (block : List Nat) : List Nat :=
  let ws := extendSchedule (bytesToWords block)
  let s0 : Sha512State :=
    { a := hs.getD 0 0, b := hs.getD 1 0, c := hs.getD 2 0, d := hs.getD 3 0,
      e := hs.getD 4 0, f := hs.getD 5 0, g := hs.getD 6 0, h := hs.getD 7 0 }
  let s := (List.zip ws SHA512K).foldl (fun s wk => roundStep wk.1 wk.2 s) s0
  [w64 (hs.getD 0 0 + s.a), w64 (hs.getD 1 0 + s.b), w64 (hs.getD 2 0 + s.c),
   w64 (hs.getD 3 0 + s.d), w64 (hs.getD 4 0 + s.e), w64 (hs.getD 5 0 + s.f),
   w64 (hs.getD 6 0 + s.g), w64 (hs.getD 7 0 + s.h)]

/-- MD-strengthening padding: append `0x80`, zeros, then the 128-bit
big-endian bit length, up to a multiple of 128 bytes. -/
def padMessage (msg : List Nat) : List Nat :=
  let l := msg.length
  let zeros := (128 - ((l + 17) % 128)) % 128
  let bitlen := l * 8
  msg ++ [0x80] ++ List.replicate zeros 0 ++
    (List.range 16).map (fun i => (bitlen >>> ((15 - i) * 8)) &&& 0xff)

/-- Split a byte list into 128-byte blocks; the fuel argument (the list
length suffices) keeps the recursion structural. -/
def splitBlocks : Nat → List Nat → List (List Nat)
  | 0, _ => []
  | _, [] => []
  | fuel + 1, l => l.take 128 :: splitBlocks fuel (l.drop 128)

/-- The eight 64-bit words of the SHA-512 digest of a byte list. -/
def sha512Words (msg : List Nat) : List Nat :=
  let padded := padMessage msg
  (splitBlocks padded.length padded).foldl compressBlock SHA512H0

/-- Lowercase hexadecimal digit characters. -/
def hexChar (n : Nat) : Char :=
  if n = 0 then '0' else if n = 1 then '1' else if n = 2 then '2'
  else if n = 3 then '3' else if n = 4 then '4' else if n = 5 then '5'
  else if n = 6 then '6' else if n = 7 then '7' else if n = 8 then '8'
  else if n = 9 then '9' else if n = 10 then 'a' else if n = 11 then 'b'
  else if n = 12 then 'c' else if n = 13 then 'd' else if n = 14 then 'e'
  else 'f'

/-- The 16 hex characters of one 64-bit word, most significant first. -/
def wordToHexChars (x : Nat) : List Char :=
  (List.range 16).map (fun i => hexChar ((x >>> ((15 - i) * 4)) &&& 0xf))

/-- `hashlib.sha512(msg).hexdigest()`: the 128-character lowercase
hexadecimal SHA-512 digest. -/
def sha512hex (msg : List Nat) : String :=
  String.mk (((sha512Words msg).map wordToHexChars).flatten)

/-! ### The version matcher (`matching_version`, `anypython.py` lines 16-31) -/

/-- `matching_version(desired, gotten)`: exact match, else
`f"{desired}.{x}" == gotten` for some `x` in `range(100)`, else
`f"{desired}{x}" == gotten.replace(".", "")` for some `x` in
`range(100)`, else no match. -/
def matching_version (desired gotten : String) : Bool :=
  if desired == gotten then true
  else if (List.range 100).any (fun x => desired ++ "." ++ Nat.repr x == gotten) then true
  else
    let dotlessgotten := pyRemoveDots gotten
    if (List.range 100).any (fun x => desired ++ Nat.repr x == dotlessgotten) then true
    else false

/-! ### Version extraction (`anypython.py` lines 34-42) -/

/-- `extract_exe_ver`: `exe.split("/")[-1].split("-")[1]`.  Python raises
`IndexError` when the final path segment has no `-`-separated second
field; paths violating the discovery naming convention are not
exercised by any claim, and that case is embedded as `""`. -/
def extract_exe_ver (exe : String) : String :=
  ((pySplit ((pySplit exe '/').getLastD "") '-')).getD 1 ""

/-- `extract_exe_ver_int_tuple`: the version string split on `.`, each
segment parsed as an integer, used only for sorting and note lookup. -/
def extract_exe_ver_int_tuple (exe : String) : List Nat :=
  (pySplit (extract_exe_ver exe) '.').map pyDigitsToNat

/-! ### The table renderer (`format_pretty_table`, `anypython.py` lines 45-68)

Rows are embedded as `Option (List String)`: `none` is the `None`
separator marker, and cells are taken already stringified (in `run_all`
every cell handed to the renderer is a string once the duplicate-count
pass has replaced the `-1` placeholder, so the `str` mapping on line 47
is the identity).  The renderer returns `none` exactly where the Python
raises: `max()` of an empty sequence (line 48) and `maxlens[i]` reads
beyond the column count (line 54).
-/

/-- `max(map(len, (row for row in data if row is not None)))`, `none`
when there is no non-separator row (Python raises `ValueError`). -/
def colcountOf (data : List (Option (List String))) : Option Nat :=
  match (data.filterMap id).map List.length with
  | [] => none
  | x :: xs => some (xs.foldl max x)

/-- One pass of lines 53-55 over one row: bump each tracked width to the
cell length when the cell is longer.  Reading `maxlens[i]` past the end
(Python `IndexError`) is `none`. -/
def updateRow : List Nat → List String → Option (List Nat)
  | acc, [] => some acc
  | [], _ :: _ => none
  | m :: ms, c :: cs =>
      (updateRow ms cs).map (fun rest => (if c.length > m then c.length else m) :: rest)

/-- Lines 49-55: fold the width-bumping pass over every non-separator
row, starting from `colcount * [0]`. -/
def foldMaxlens (acc : List Nat) : List (Option (List String)) → Option (List Nat)
  | [] => some acc
  | none :: rest => foldMaxlens acc rest
  | some row :: rest =>
      match updateRow acc row with
      | none => none
      | some acc2 => foldMaxlens acc2 rest

/-- The final column widths of a table, `none` where Python raises. -/
def maxlensOf (data : List (Option (List String))) : Option (List Nat) :=
  match colcountOf data with
  | none => none
  | some colcount => foldMaxlens (List.replicate colcount 0) data

/-- Line 59: a separator renders as `|`-joined runs of `-`, one run per
column at that column's width. -/
def sepLine (maxlens : List Nat) : String :=
  pyJoin "|" (maxlens.map (fun width => String.mk (List.replicate width '-')))

/-- Lines 61-66: the cells of one rendered row; `zip(row, maxlens)`
truncates at the shorter list, and column indices listed in `rjust` are
right-justified. -/
def renderCells (rjust : List Nat) : Nat → List String → List Nat → List String
  | _, [], _ => []
  | _, _ :: _, [] => []
  | i, c :: cs, w :: ws =>
      (if i ∈ rjust then pyRjust c w else pyLjust c w) :: renderCells rjust (i + 1) cs ws

/-- Lines 56-67: every row rendered, in order, separators as dashed
rules and data rows as `|`-joined padded cells. -/
def format_pretty_lines (data : List (Option (List String))) (rjust : List Nat) :
    Option (List String) :=
  match maxlensOf data with
  | none => none
  | some maxlens =>
      some (data.map (fun row =>
        match row with
        | none => sepLine maxlens
        | some cells => pyJoin "|" (renderCells rjust 0 cells maxlens)))

/-- `format_pretty_table(origdata, rjust)`: the rendered lines joined
with newlines; `none` exactly where the Python raises. -/
def format_pretty_table (data : List (Option (List String))) (rjust : List Nat) :
    Option String :=
  (format_pretty_lines data rjust).map (pyJoin "\n")

/-- The cell lengths present at column `j`: for every non-separator row
that has a cell at index `j`, that cell's length, in row order. -/
def colCellLens (data : List (Option (List String))) (j : Nat) : List Nat :=
  data.filterMap (fun row => row.bind (fun cells => (cells.get? j).map String.length))

/-- The width the spec prescribes for column `j`: the maximum cell
length over the rows that have a cell at that index (0 when none
does). -/
def specWidth (data : List (Option (List String))) (j : Nat) : Nat :=
  (colCellLens data j).foldl max 0

/-- The total companion of `updateRow`: the same width-bumping pass,
defined for every input (it agrees with `updateRow` whenever the row
fits, which is what `updateRow` checks). -/
def mergeRow : List Nat → List String → List Nat
  | acc, [] => acc
  | [], _ :: _ => []
  | m :: ms, c :: cs => (if c.length > m then c.length else m) :: mergeRow ms cs

/-- A table with uneven cell counts and a separator, used as a concrete
renderer input. -/
def unevenTable : List (Option (List String)) :=
  [some ["ab", "c"], none, some ["defg"]]

/-! ### Notes and fingerprints (`anypython.py` lines 71-88) -/

/-- `VERSION_NOTES`: for each Python version, what Ubuntu xx.04 LTS it
ships on (keys are major.minor pairs). -/
def VERSION_NOTES : List ((Nat × Nat) × String) := [
  ((3, 5), " no f-strings "),
  ((3, 6), " Ubuntu 18 "),
  ((3, 8), " Ubuntu 20 "),
  ((3, 10), " Ubuntu 22 "),
  ((3, 12), " Ubuntu 24 ")]

/-- `VERSION_NOTES.get(ver, "")`: dictionary lookup with default. -/
def notesGetD (k : Nat × Nat) : String :=
  ((VERSION_NOTES.find? (fun p => p.1 == k)).map (fun p => p.2)).getD ""

/-- `get_note_for_exe`: look up the note for the first two components of
the executable's version (a version with fewer than two components,
which the discovery convention never produces, reads as component 0). -/
def get_note_for_exe (exe : String) : String :=
  let ver := extract_exe_ver_int_tuple exe
  notesGetD (ver.getD 0 0, ver.getD 1 0)

/-- `SIGNIFICAN_HASH_CHARS`: how many hex digest characters are kept. -/
def SIGNIFICAN_HASH_CHARS : Nat := 35

/-- Line 121: `hashlib.sha512(result.stdout).hexdigest()[:SIGNIFICAN_HASH_CHARS]`,
the fingerprint of one execution's captured stdout bytes. -/
def fingerprint (stdout : List Nat) : String :=
  pyTake (sha512hex stdout) SIGNIFICAN_HASH_CHARS

/-! ### Batch mode (`run_all`, `anypython.py` lines 91-139)

One execution is embedded as the data the parent observes of it: the
executable path, the child's exit code, and the child's captured stdout
bytes.
-/

/-- The observable outcome of running one executable. -/
structure ExeRun where
  exe : String
  returncode : Int
  stdout : List Nat

/-- The header row built on lines 95-104. -/
def headerRow : List String :=
  [" Executable ", " Version ", "Code",
   " Stdout Hash " ++ Nat.repr SIGNIFICAN_HASH_CHARS ++ " chars of SHA512 ",
   " Note", " # "]

/-- The stdout-hash table cell of one execution (line 128). -/
def hashCellOf (stdout : List Nat) : String := " " ++ fingerprint stdout ++ " "

/-- Lines 123-132: one data row as first appended, with the `-1`
duplicate-count placeholder (an `int` in Python, stringified before
rendering; the placeholder is overwritten for every data row by the
second pass, so it is embedded as its string form). -/
def prelimRow (r : ExeRun) : List String :=
  [" " ++ r.exe ++ " ",
   extract_exe_ver r.exe ++ " ",
   toString r.returncode ++ " ",
   hashCellOf r.stdout,
   get_note_for_exe r.exe,
   "-1"]

/-- `counts[key] += 1` on a `defaultdict(int)` embedded as a function. -/
def bumpCount (c : String → Nat) (k : String) : String → Nat :=
  Function.update c k (c k + 1)

/-- Line 107 and line 133: the `defaultdict(int)` of hash-cell
occurrence counts after the execution loop. -/
def countsOf (keys : List String) : String → Nat :=
  keys.foldl bumpCount (fun _ => 0)

/-- Lines 94-136: the full row list of the batch report: header,
separator, then one row per execution whose last cell has been replaced
by `" " + str(counts[rows[i][-3]])` in the second pass. -/
def run_all_rows (runs : List ExeRun) : List (Option (List String)) :=
  let prelim := runs.map prelimRow
  let counts := countsOf (prelim.map (fun row => row.getD 3 ""))
  some headerRow :: none ::
    prelim.map (fun row => some (row.set 5 (" " ++ Nat.repr (counts (row.getD 3 "")))))

/-- The cell at row `i`, column `j` of a row list (`none` when absent or
when row `i` is a separator). -/
def tableCell (rowsList : List (Option (List String))) (i j : Nat) : Option String :=
  match rowsList.get? i with
  | some (some row) => row.get? j
  | _ => none

/-! ### Selection (`main`, `anypython.py` lines 142-185)

`main` is embedded as a function of the argument vector, the discovered
(already sorted) executable list, and the exit code the chosen child
would return; the result says which of the five terminal behaviours the
process takes.  Discovery itself (the glob on line 146) is the external
collaborator and is not modelled.
-/

/-- The terminal behaviours of `main`. -/
inductive MainResult where
  | usage : List String → MainResult
  | allMode : MainResult
  | noMatch : List String → MainResult
  | ambiguous : List String → MainResult
  | runOne : String → Int → MainResult
deriving DecidableEq

/-- Lines 150-185 of `main`: too-short or missing specifier prints the
available versions and exits 1; `"all"` enters batch mode; otherwise the
matching executables are counted: zero prints the available versions and
exits 1, more than one prints the matching versions and exits 1, and
exactly one is executed with the extra arguments. -/
def mainRun (argv : List String) (exes : List String) (childCode : Int) : MainResult :=
  if argv.length < 2 ∨ (argv.getD 1 "").length < 2 then
    .usage (exes.map extract_exe_ver)
  else if argv.getD 1 "" == "all" then
    .allMode
  else
    let found := exes.filter (fun exe => matching_version (argv.getD 1 "") (extract_exe_ver exe))
    if found.length = 0 then .noMatch (exes.map extract_exe_ver)
    else if found.length > 1 then .ambiguous (found.map extract_exe_ver)
    else .runOne (found.getD 0 "") childCode

/-- The process exit code of each terminal behaviour: the error paths
exit 1, batch mode returns normally (exit 0), and the single-match path
forwards the child's exit code (line 185). -/
def programExitCode : MainResult → Int
  | .usage _ => 1
  | .allMode => 0
  | .noMatch _ => 1
  | .ambiguous _ => 1
  | .runOne _ code => code

/-! ### The I/O trace of one batch execution (`anypython.py` lines 108-122)

`subprocess.run(args, check=False, stdout=subprocess.PIPE)` reads the
child's stdout chunk by chunk until end-of-file and only returns once
the child has exited, with the concatenation of the chunks as
`result.stdout`; the parent then writes that whole buffer to its own
stdout (lines 116-118) and prints the status line (line 122).  The trace
records, in program order, the chunk reads from the child, the parent's
raw stdout writes, its flushes, and its text line prints.  The child's
stdout is taken as an arbitrary chunk sequence `childChunks`.
-/

/-- One observable I/O event of the execution loop body. -/
inductive TraceEvent where
  | readChunk : List Nat → TraceEvent
  | writeStdout : List Nat → TraceEvent
  | printLine : String → TraceEvent
  | flushEvent : TraceEvent
deriving DecidableEq

/-- `shlex.join(args)` modelled as plain space joining: no argument used
by any claim needs shell quoting. -/
def shlexJoin (args : List String) : String := pyJoin " " args

/-- Lines 110-122 for one executable: print the command line, let
`subprocess.run` drain every chunk of the child's stdout, then flush,
write the captured buffer to the parent's stdout, flush, and print the
return-code and stdout-hash status line. -/
def run_one_trace (exe : String) (argv2 : List String) (childChunks : List (List Nat))
    (code : Int) : List TraceEvent :=
  [TraceEvent.printLine (shlexJoin (exe :: argv2) ++ " # running")] ++
    childChunks.map TraceEvent.readChunk ++
    [TraceEvent.flushEvent,
     TraceEvent.writeStdout childChunks.flatten,
     TraceEvent.flushEvent,
     TraceEvent.printLine ("Return code = " ++ toString code ++
       " and hash of stdout = " ++ fingerprint childChunks.flatten ++ "\n")]

/-- Is an event a chunk read from the child? -/
def isReadEvent : TraceEvent → Bool
  | .readChunk _ => true
  | .writeStdout _ => false
  | .printLine _ => false
  | .flushEvent => false

/-- The raw byte payloads written to the parent's stdout, in order. -/
def writesOf (tr : List TraceEvent) : List (List Nat) :=
  tr.filterMap (fun e =>
    match e with
    | .writeStdout bs => some bs
    | _ => none)

/-- The chunks read from the child, in order. -/
def readsOf (tr : List TraceEvent) : List (List Nat) :=
  tr.filterMap (fun e =>
    match e with
    | .readChunk bs => some bs
    | _ => none)

/-- Among the child-stdout pipe events, is the next one after this point
a write (or is there none)?  Helper for `echoBeforeNextRead`. -/
def nextPipeEventIsWrite : List TraceEvent → Bool
  | [] => true
  | .writeStdout _ :: _ => true
  | .readChunk _ :: _ => false
  | .printLine _ :: rest => nextPipeEventIsWrite rest
  | .flushEvent :: rest => nextPipeEventIsWrite rest

/-- Formalises the spec sentence of the claim: every chunk read from the
child is written to the parent's stdout before the next chunk is read
(here in the weak form: between two chunk reads some raw stdout write
occurs). -/
def echoBeforeNextRead : List TraceEvent → Bool
  | [] => true
  | .readChunk _ :: rest => nextPipeEventIsWrite rest && echoBeforeNextRead rest
  | .writeStdout _ :: rest => echoBeforeNextRead rest
  | .printLine _ :: rest => echoBeforeNextRead rest
  | .flushEvent :: rest => echoBeforeNextRead rest

/-- No chunk read from the child happens after a raw stdout write: the
capture is fully drained before any echo. -/
def noReadAfterWrite : List TraceEvent → Bool
  | [] => true
  | .readChunk _ :: rest => noReadAfterWrite rest
  | .writeStdout _ :: rest => rest.all (fun e => !isReadEvent e) && noReadAfterWrite rest
  | .printLine _ :: rest => noReadAfterWrite rest
  | .flushEvent :: rest => noReadAfterWrite rest

/-! ### Concrete fixtures used by witnesses and counterexamples -/

/-- Discovered executables with declared versions 3.6.9, 3.8.10, 3.10.2,
named by the discovery glob convention of line 146. -/
def demoExes : List String :=
  ["D:\\anypython\\python-3.6.9-embed-win32\\python.exe",
   "D:\\anypython\\python-3.8.10-embed-win32\\python.exe",
   "D:\\anypython\\python-3.10.2-embed-win32\\python.exe"]

/-- Three executions whose stdout outputs are `"a"`, `"a"`, `"b"`. -/
def demoRuns : List ExeRun :=
  [⟨"D:\\anypython\\python-3.6.9-embed-win32\\python.exe", 0, [97]⟩,
   ⟨"D:\\anypython\\python-3.8.10-embed-win32\\python.exe", 0, [97]⟩,
   ⟨"D:\\anypython\\python-3.10.2-embed-win32\\python.exe", 0, [98]⟩]


/-! ## Theorems -/

/-! ### Validation of the SHA-512 embedding (FIPS 180-4 test vectors) -/

set_option maxRecDepth 8000 in
/-- The embedded SHA-512 agrees with the standard digest of the empty
message. -/
theorem sha512hex_empty_vector :
    sha512hex [] =
      "cf83e1357eefb8bdf1542850d66d8007d620e4050b5715dc83f4a921d36ce9ce47d0d13c5d85f2b0ff8318d2877eec2f63b931bd47417a81a538327af927da3e" := by
  decide

set_option maxRecDepth 8000 in
/-- The embedded SHA-512 agrees with the standard digest of `"abc"`
(bytes `[97, 98, 99]`). -/
theorem sha512hex_abc_vector :
    sha512hex [97, 98, 99] =
      "ddaf35a193617abacc417349ae20413112e6fa4e89a97ea20a9eeee64b55d39a2192992a274fc1a836ba3c23a3feebbd454d4423643ce80e2a9ac94fa54ca49f" := by
  decide

/-! ### The version matcher -/

/-- The early-return chain of `matching_version` is the disjunction of
its three rules. -/
theorem matching_version_or_form (desired gotten : String) :
    matching_version desired gotten =
      ((desired == gotten) ||
       (List.range 100).any (fun x => desired ++ "." ++ Nat.repr x == gotten) ||
       (List.range 100).any (fun x => desired ++ Nat.repr x == pyRemoveDots gotten)) := by
  unfold matching_version
  cases h1 : (desired == gotten) <;>
    cases h2 : (List.range 100).any (fun x => desired ++ "." ++ Nat.repr x == gotten) <;>
      cases h3 : (List.range 100).any (fun x => desired ++ Nat.repr x == pyRemoveDots gotten) <;>
        simp [h1, h2, h3]

/-- C2: `matching_version(desired, declared)` returns true iff the
strings are equal, or declared equals `desired + "." + y` for the
decimal rendering of some `y` with `0 ≤ y ≤ 99`, or declared with all
dots removed equals `desired + y` for such a `y`; in particular `"3.11"`
matches `"3.11.4"`, `"38"` matches `"3.8.10"` via `"38" + "10"`, and
`"31"` matches `"3.14"` via `"31" + "4"`. -/
theorem claim2_matching_rules :
    (∀ desired gotten : String,
      matching_version desired gotten = true ↔
        (desired = gotten
         ∨ (∃ y, y ≤ 99 ∧ gotten = desired ++ "." ++ Nat.repr y)
         ∨ (∃ y, y ≤ 99 ∧ pyRemoveDots gotten = desired ++ Nat.repr y)))
    ∧ matching_version "3.11" "3.11.4" = true
    ∧ matching_version "38" "3.8.10" = true
    ∧ matching_version "31" "3.14" = true := by
  refine ⟨fun desired gotten => ?_, by decide, by decide, by decide⟩
  rw [matching_version_or_form]
  simp only [Bool.or_eq_true, List.any_eq_true, List.mem_range, beq_iff_eq, or_assoc]
  constructor
  · rintro (h | ⟨x, hx, he⟩ | ⟨x, hx, he⟩)
    · exact Or.inl h
    · exact Or.inr (Or.inl ⟨x, by omega, he.symm⟩)
    · exact Or.inr (Or.inr ⟨x, by omega, he.symm⟩)
  · rintro (h | ⟨y, hy, he⟩ | ⟨y, hy, he⟩)
    · exact Or.inl h
    · exact Or.inr (Or.inl ⟨y, by omega, he.symm⟩)
    · exact Or.inr (Or.inr ⟨y, by omega, he.symm⟩)

/-- C1, counterexample to the claim as stated: against the declared
versions 3.6.9, 3.8.10, 3.10.2, specifier `"3"` does NOT match zero
descriptors: the dot-less rule fires on 3.6.9 (`"3" + "69" = "369"`), so
the filter of `main` keeps one executable. -/
theorem claim1_counterexample :
    matching_version "3" "3.6.9" = true
    ∧ (demoExes.filter (fun exe => matching_version "3" (extract_exe_ver exe))) ≠ [] := by
  constructor
  · decide
  · decide

/-- C1, amended: specifier `"3.8"` selects exactly the 3.8.10
descriptor; specifier `"3"` matches exactly one descriptor, 3.6.9 (via
the dot-less rule); and the program never reports the no-match error for
`"3"`: being shorter than 2 characters, `"3"` is rejected up front with
the usage error, which also lists all three versions. -/
theorem claim1_selection :
    (demoExes.filter (fun exe => matching_version "3.8" (extract_exe_ver exe)))
        = ["D:\\anypython\\python-3.8.10-embed-win32\\python.exe"]
    ∧ (demoExes.filter (fun exe => matching_version "3" (extract_exe_ver exe)))
        = ["D:\\anypython\\python-3.6.9-embed-win32\\python.exe"]
    ∧ mainRun ["anypython.py", "3.8"] demoExes 0
        = MainResult.runOne "D:\\anypython\\python-3.8.10-embed-win32\\python.exe" 0
    ∧ mainRun ["anypython.py", "3"] demoExes 0
        = MainResult.usage ["3.6.9", "3.8.10", "3.10.2"]
    ∧ programExitCode (mainRun ["anypython.py", "3"] demoExes 0) = 1 := by
  refine ⟨by decide, by decide, by decide, by decide, by decide⟩


/-! ### The execution trace of the run/hash pipeline -/

/-- A prefix of chunk-read events adds no parent stdout write. -/
theorem writesOf_readPrefix (chunks : List (List Nat)) (rest : List TraceEvent) :
    writesOf (chunks.map TraceEvent.readChunk ++ rest) = writesOf rest := by
  induction chunks with
  | nil => rfl
  | cons c cs ih => exact ih

/-- A prefix of chunk-read events contributes exactly its chunks to the
reads of a trace. -/
theorem readsOf_readPrefix (chunks : List (List Nat)) (rest : List TraceEvent) :
    readsOf (chunks.map TraceEvent.readChunk ++ rest) = chunks ++ readsOf rest := by
  induction chunks with
  | nil => rfl
  | cons c cs ih =>
      show c :: readsOf (cs.map TraceEvent.readChunk ++ rest) = _
      rw [ih]
      rfl

/-- A prefix of chunk reads does not affect `noReadAfterWrite`. -/
theorem noReadAfterWrite_readPrefix (chunks : List (List Nat)) (rest : List TraceEvent) :
    noReadAfterWrite (chunks.map TraceEvent.readChunk ++ rest) = noReadAfterWrite rest := by
  induction chunks with
  | nil => rfl
  | cons c cs ih => exact ih

/-- C5, counterexample to the claim as stated: with a child that emits
its stdout in two chunks, `subprocess.run` (line 112) drains both chunks
before returning, so no parent stdout write separates the two reads: the
echo is not chunkwise live. -/
theorem claim5_counterexample :
    echoBeforeNextRead
      (run_one_trace "D:\\anypython\\python-3.8.10-embed-win32\\python.exe"
        ["script.py"] [[97], [98]] 0) = false := by
  decide

/-- C5, amended: the child's captured stdout is echoed to the parent's
stdout byte-for-byte with no transcoding, but only once, after every
chunk has been read (the child has exited): the trace performs exactly
one raw stdout write, of the concatenation of all chunks read, no chunk
read follows any write, and the status line printed at the end reports
the fingerprint computed over exactly the echoed bytes. -/
theorem claim5_echo_after_capture (exe : String) (argv2 : List String)
    (chunks : List (List Nat)) (code : Int) :
    writesOf (run_one_trace exe argv2 chunks code) = [chunks.flatten]
    ∧ readsOf (run_one_trace exe argv2 chunks code) = chunks
    ∧ noReadAfterWrite (run_one_trace exe argv2 chunks code) = true
    ∧ TraceEvent.printLine ("Return code = " ++ toString code ++
        " and hash of stdout = " ++ fingerprint chunks.flatten ++ "\n")
        ∈ run_one_trace exe argv2 chunks code := by
  refine ⟨?_, ?_, ?_, ?_⟩
  · show writesOf (chunks.map TraceEvent.readChunk ++ _) = _
    rw [writesOf_readPrefix]
    rfl
  · show readsOf (chunks.map TraceEvent.readChunk ++ _) = _
    rw [readsOf_readPrefix]
    simp [readsOf]
  · show noReadAfterWrite (chunks.map TraceEvent.readChunk ++ _) = _
    rw [noReadAfterWrite_readPrefix]
    rfl
  · unfold run_one_trace
    simp [List.mem_append]

/-! ### Single-match selection and exit-code forwarding -/

/-- C6: in single-match mode (specifier at least 2 characters, not
`"all"`, exactly one matching executable) the program runs the found
executable and adopts the child's exit code as its own, whatever that
code is: `subprocess.run` is called with `check=False` and line 185
forwards `result.returncode` unconditionally, so a non-zero child exit
code is reported as data, never treated as a fault of the program. -/
theorem claim6_exit_code_forwarding (prog spec : String) (extra exes : List String)
    (childCode : Int) (hlen : 2 ≤ spec.length) (hnall : spec ≠ "all")
    (hone : (exes.filter (fun exe => matching_version spec (extract_exe_ver exe))).length = 1) :
    mainRun (prog :: spec :: extra) exes childCode =
      MainResult.runOne
        ((exes.filter (fun exe => matching_version spec (extract_exe_ver exe))).getD 0 "")
        childCode
    ∧ programExitCode (mainRun (prog :: spec :: extra) exes childCode) = childCode := by
  have hget : (prog :: spec :: extra).getD 1 "" = spec := rfl
  have h1 : ¬((prog :: spec :: extra).length < 2 ∨ ((prog :: spec :: extra).getD 1 "").length < 2) := by
    rw [hget]
    simp only [List.length_cons, not_or, not_lt]
    omega
  have h2 : ¬(((prog :: spec :: extra).getD 1 "" == "all") = true) := by
    rw [hget]
    simp [hnall]
  have h0 : ¬((exes.filter (fun exe => matching_version spec (extract_exe_ver exe))).length = 0) := by
    omega
  have hgt : ¬((exes.filter (fun exe => matching_version spec (extract_exe_ver exe))).length > 1) := by
    omega
  have hmain : mainRun (prog :: spec :: extra) exes childCode =
      MainResult.runOne
        ((exes.filter (fun exe => matching_version spec (extract_exe_ver exe))).getD 0 "")
        childCode := by
    unfold mainRun
    rw [if_neg h1, if_neg h2, hget, if_neg h0, if_neg hgt]
  exact ⟨hmain, by rw [hmain]; rfl⟩

/-- Witness for C6 at a concrete single-match input with a non-zero
(negative) child exit code. -/
theorem claim6_exit_code_forwarding_witness :
    2 ≤ ("3.8" : String).length ∧ ("3.8" : String) ≠ "all"
    ∧ (demoExes.filter (fun exe => matching_version "3.8" (extract_exe_ver exe))).length = 1
    ∧ (mainRun ("anypython.py" :: "3.8" :: ["script.py"]) demoExes (-9) =
        MainResult.runOne
          ((demoExes.filter (fun exe => matching_version "3.8" (extract_exe_ver exe))).getD 0 "")
          (-9)
       ∧ programExitCode (mainRun ("anypython.py" :: "3.8" :: ["script.py"]) demoExes (-9)) = -9) :=
  ⟨by decide, by decide, by decide,
   claim6_exit_code_forwarding "anypython.py" "3.8" ["script.py"] demoExes (-9)
     (by decide) (by decide) (by decide)⟩

/-! ### Duplicate counting in the batch report -/

/-- Folding `counts[key] += 1` over a key list computes occurrence
counts: looking up any key afterwards adds the key's multiplicity to its
initial value. -/
theorem countsOf_fold_spec (keys : List String) :
    ∀ (c0 : String → Nat) (k : String),
      (keys.foldl bumpCount c0) k = c0 k + keys.count k := by
  induction keys with
  | nil => intro c0 k; simp
  | cons h t ih =>
      intro c0 k
      show (t.foldl bumpCount (bumpCount c0 h)) k = _
      rw [ih (bumpCount c0 h) k, List.count_cons]
      unfold bumpCount
      by_cases hk : k = h
      · rw [Function.update_apply]
        simp [hk]
        omega
      · rw [Function.update_apply]
        have : (h == k) = false := beq_eq_false_iff_ne.mpr (fun he => hk he.symm)
        simp [hk, this]

/-- The hash table cell determines the fingerprint and vice versa: the
surrounding spaces are injective wrapping. -/
theorem hashCell_inj (s t : List Nat) :
    hashCellOf s = hashCellOf t ↔ fingerprint s = fingerprint t := by
  constructor
  · intro he
    have hd := congrArg String.data he
    unfold hashCellOf at hd
    rw [String.data_append, String.data_append, String.data_append, String.data_append] at hd
    have h1 := List.append_cancel_right hd
    have h2 := List.append_cancel_left h1
    exact String.ext h2
  · intro he
    unfold hashCellOf
    rw [he]

/-- The Boolean form of `hashCell_inj`. -/
theorem hashCell_beq (s t : List Nat) :
    (hashCellOf s == hashCellOf t) = (fingerprint s == fingerprint t) := by
  by_cases hfp : fingerprint s = fingerprint t
  · have h2 : hashCellOf s = hashCellOf t := (hashCell_inj s t).mpr hfp
    rw [h2, hfp]
    simp
  · have hne : hashCellOf s ≠ hashCellOf t := fun he => hfp ((hashCell_inj s t).mp he)
    rw [beq_eq_false_iff_ne.mpr hne, beq_eq_false_iff_ne.mpr hfp]

/-- The hash-cell keys collected during the execution loop are the hash
cells of the runs' stdout captures. -/
theorem run_all_keys (runs : List ExeRun) :
    (runs.map prelimRow).map (fun row => row.getD 3 "") =
      runs.map (fun r2 => hashCellOf r2.stdout) := by
  rw [List.map_map]
  rfl

/-- Data row `i` of the batch report, as stored after the second
(duplicate-count) pass. -/
theorem run_all_rows_get (runs : List ExeRun) (i : Nat) (h : i < runs.length) :
    (run_all_rows runs).get? (i + 2) =
      some (some ((prelimRow (runs.get ⟨i, h⟩)).set 5
        (" " ++ Nat.repr ((countsOf (runs.map (fun r2 => hashCellOf r2.stdout)))
          (hashCellOf (runs.get ⟨i, h⟩).stdout))))) := by
  unfold run_all_rows
  show ((runs.map prelimRow).map _).get? i = _
  rw [run_all_keys]
  rw [List.get?_map, List.get?_map, List.get?_eq_get h]
  rfl

set_option maxRecDepth 10000 in
/-- C3: after batch aggregation every data row's duplicate-count cell
holds the number of runs in the same batch whose fingerprint equals its
own (counting itself); in particular for three executions with stdout
outputs `"a"`, `"a"`, `"b"` the duplicate-count cells read 2, 2, 1 in
input order. -/
theorem claim3_duplicate_counts :
    (∀ (runs : List ExeRun) (i : Nat) (h : i < runs.length),
      tableCell (run_all_rows runs) (i + 2) 5 =
        some (" " ++ Nat.repr
          ((runs.filter (fun r2 =>
            fingerprint r2.stdout == fingerprint (runs.get ⟨i, h⟩).stdout)).length)))
    ∧ tableCell (run_all_rows demoRuns) 2 5 = some " 2"
    ∧ tableCell (run_all_rows demoRuns) 3 5 = some " 2"
    ∧ tableCell (run_all_rows demoRuns) 4 5 = some " 1" := by
  refine ⟨?_, by decide, by decide, by decide⟩
  intro runs i h
  unfold tableCell
  rw [run_all_rows_get runs i h]
  show some _ = _
  have hcount : (countsOf (runs.map (fun r2 => hashCellOf r2.stdout)))
      (hashCellOf (runs.get ⟨i, h⟩).stdout) =
      (runs.filter (fun r2 =>
        fingerprint r2.stdout == fingerprint (runs.get ⟨i, h⟩).stdout)).length := by
    unfold countsOf
    rw [countsOf_fold_spec]
    rw [List.count_eq_countP, List.countP_map]
    rw [List.countP_eq_length_filter]
    have hptw : ∀ r2 ∈ runs,
        (((fun row => row == hashCellOf (runs.get ⟨i, h⟩).stdout) ∘
            (fun r2 => hashCellOf r2.stdout)) r2) =
          ((fun r2 => fingerprint r2.stdout == fingerprint (runs.get ⟨i, h⟩).stdout) r2) := by
      intro r2 _
      exact hashCell_beq r2.stdout (runs.get ⟨i, h⟩).stdout
    rw [List.filter_congr hptw]
    omega
  rw [hcount]

set_option maxRecDepth 10000 in
/-- Witness for C3: the first of the three demo executions, whose cell
evaluates to `" 2"`. -/
theorem claim3_duplicate_counts_witness :
    0 < demoRuns.length ∧ tableCell (run_all_rows demoRuns) (0 + 2) 5 = some " 2" :=
  ⟨by decide,
   (claim3_duplicate_counts.1 demoRuns 0 (by decide)).trans (by decide)⟩

/-! ### Fingerprint shape and length -/

/-- Each 64-bit word renders as 16 hex characters. -/
theorem wordToHexChars_length (x : Nat) : (wordToHexChars x).length = 16 := by
  unfold wordToHexChars
  rw [List.length_map, List.length_range]

/-- The compression function returns eight words. -/
theorem compressBlock_length (hs block : List Nat) : (compressBlock hs block).length = 8 := rfl

/-- Folding the compression function over any block list keeps eight
words. -/
theorem foldl_compressBlock_length (blocks : List (List Nat)) :
    ∀ hs : List Nat, (blocks.foldl compressBlock hs).length = 8 ∨ blocks = [] := by
  induction blocks with
  | nil => intro hs; exact Or.inr rfl
  | cons b bs ih =>
      intro hs
      left
      rcases ih (compressBlock hs b) with h | h
      · exact h
      · rw [h]
        exact compressBlock_length hs b

/-- The SHA-512 digest always has eight words: the padded message is
never empty, so at least one block is compressed. -/
theorem sha512Words_length (msg : List Nat) : (sha512Words msg).length = 8 := by
  unfold sha512Words
  rcases foldl_compressBlock_length (splitBlocks (padMessage msg).length (padMessage msg))
      SHA512H0 with h | h
  · exact h
  · exfalso
    have hlen : (padMessage msg).length = msg.length + 1 + ((128 - ((msg.length + 17) % 128)) % 128) + 16 := by
      unfold padMessage
      simp [List.length_append, List.length_replicate, List.length_map, List.length_range]
      omega
    have hpos : 0 < (padMessage msg).length := by omega
    rcases hfuel : (padMessage msg).length with _ | fuel
    · omega
    · rcases hlist : padMessage msg with _ | ⟨x, xs⟩
      · rw [hlist] at hfuel
        simp at hfuel
      · rw [hfuel, hlist] at h
        simp [splitBlocks] at h

/-- The lengths of the hex renderings of a word list sum to 16 per
word. -/
theorem sum_map_hexlen (l : List Nat) :
    ((l.map wordToHexChars).map List.length).sum = 16 * l.length := by
  induction l with
  | nil => rfl
  | cons x xs ih =>
      simp only [List.map_cons, List.sum_cons, wordToHexChars_length, ih, List.length_cons]
      ring

/-- The hex digest of SHA-512 is always 128 characters long. -/
theorem sha512hex_length (msg : List Nat) : (sha512hex msg).length = 128 := by
  unfold sha512hex
  rw [String.length_mk, List.length_flatten, sum_map_hexlen, sha512Words_length]

/-- Every fingerprint is exactly 35 characters long. -/
theorem fingerprint_length (stdout : List Nat) : (fingerprint stdout).length = 35 := by
  unfold fingerprint pyTake
  rw [String.length_mk, List.length_take]
  rw [show (sha512hex stdout).data.length = (sha512hex stdout).length from rfl]
  rw [sha512hex_length]
  decide

set_option maxRecDepth 10000 in
/-- C4: every data row's reported fingerprint is the first
`SIGNIFICAN_HASH_CHARS = 35` characters of the hexadecimal SHA-512
digest of the raw captured stdout bytes (no newline normalization, no
text decoding happens anywhere between capture and hash); every
fingerprint is 35 characters, and the embedded hash is SHA-512 (checked
against the FIPS 180-4 `"abc"` test vector). -/
theorem claim4_fingerprint :
    (∀ (runs : List ExeRun) (i : Nat) (h : i < runs.length),
      tableCell (run_all_rows runs) (i + 2) 3 =
        some (" " ++ pyTake (sha512hex (runs.get ⟨i, h⟩).stdout) SIGNIFICAN_HASH_CHARS ++ " "))
    ∧ SIGNIFICAN_HASH_CHARS = 35
    ∧ (∀ stdout : List Nat, (fingerprint stdout).length = 35)
    ∧ sha512hex [97, 98, 99] =
        "ddaf35a193617abacc417349ae20413112e6fa4e89a97ea20a9eeee64b55d39a2192992a274fc1a836ba3c23a3feebbd454d4423643ce80e2a9ac94fa54ca49f" := by
  refine ⟨?_, rfl, fingerprint_length, sha512hex_abc_vector⟩
  intro runs i h
  unfold tableCell
  rw [run_all_rows_get runs i h]
  rfl

set_option maxRecDepth 10000 in
/-- Witness for C4: the first demo execution (stdout `"a"`), whose hash
cell evaluates to the first 35 hex characters of SHA-512 of `[97]`. -/
theorem claim4_fingerprint_witness :
    0 < demoRuns.length
    ∧ tableCell (run_all_rows demoRuns) (0 + 2) 3 =
        some " 1f40fc92da241694750979ee6cf582f2d5d " :=
  ⟨by decide,
   (claim4_fingerprint.1 demoRuns 0 (by decide)).trans (by decide)⟩

/-! ### The table renderer: determinism and the empty-table failure -/

/-- C9: the table renderer is a pure deterministic function of the row
sequence and the right-justified column set: it performs no I/O (it is
embedded as a plain function), and two renderings of the same input are
byte-identical. -/
theorem claim9_renderer_deterministic (data : List (Option (List String)))
    (rjust : List Nat) (s1 s2 : String)
    (h1 : format_pretty_table data rjust = some s1)
    (h2 : format_pretty_table data rjust = some s2) :
    s1.data = s2.data := by
  rw [h1] at h2
  injection h2 with h
  rw [h]

/-- Witness for C9 at a concrete table. -/
theorem claim9_renderer_deterministic_witness :
    format_pretty_table unevenTable [] = some "ab  |c\n----|-\ndefg"
    ∧ ("ab  |c\n----|-\ndefg" : String).data = ("ab  |c\n----|-\ndefg" : String).data :=
  ⟨by decide,
   claim9_renderer_deterministic unevenTable [] "ab  |c\n----|-\ndefg" "ab  |c\n----|-\ndefg"
     (by decide) (by decide)⟩

/-- C10: when the row sequence has no non-separator row (empty, or only
separator markers), the renderer fails instead of returning a string:
`max()` on line 48 is applied to an empty sequence and raises
`ValueError`, embedded here as `none`. -/
theorem claim10_renderer_needs_row (data : List (Option (List String)))
    (rjust : List Nat) (hsep : data.all Option.isNone = true) :
    format_pretty_table data rjust = none := by
  have hfm : data.filterMap id = [] := by
    rw [List.filterMap_eq_nil_iff]
    intro a ha
    have hn := List.all_eq_true.mp hsep a ha
    cases a with
    | none => rfl
    | some cells => simp at hn
  unfold format_pretty_table format_pretty_lines maxlensOf colcountOf
  rw [hfm]
  rfl

/-- Witness for C10: a table holding one separator marker and nothing
else. -/
theorem claim10_renderer_needs_row_witness :
    ([none] : List (Option (List String))).all Option.isNone = true
    ∧ format_pretty_table [none] [] = none :=
  ⟨by decide, claim10_renderer_needs_row [none] [] (by decide)⟩

/-! ### The table renderer: width computation on uneven rows -/

/-- Whenever the row fits within the tracked widths, the partial pass
`updateRow` succeeds and agrees with its total companion `mergeRow`. -/
theorem updateRow_eq_mergeRow :
    ∀ (cells : List String) (acc : List Nat), cells.length ≤ acc.length →
      updateRow acc cells = some (mergeRow acc cells) := by
  intro cells
  induction cells with
  | nil => intro acc _; cases acc <;> rfl
  | cons c cs ih =>
      intro acc hle
      cases acc with
      | nil => simp at hle
      | cons m ms =>
          show (updateRow ms cs).map _ = _
          rw [ih ms (by simpa using hle)]
          rfl

/-- The width-bumping pass keeps the number of tracked columns. -/
theorem mergeRow_length :
    ∀ (cells : List String) (acc : List Nat), (mergeRow acc cells).length = acc.length := by
  intro cells
  induction cells with
  | nil => intro acc; cases acc <;> rfl
  | cons c cs ih =>
      intro acc
      cases acc with
      | nil => rfl
      | cons m ms =>
          show (_ :: mergeRow ms cs).length = _
          simp [ih ms]

/-- Pointwise value of the width-bumping pass: at an index the row
covers, the tracked width is bumped to the cell length; elsewhere it is
unchanged. -/
theorem mergeRow_getD :
    ∀ (cells : List String) (acc : List Nat), cells.length ≤ acc.length →
      ∀ j, (mergeRow acc cells).getD j 0 =
        match cells.get? j with
        | some c => max (acc.getD j 0) c.length
        | none => acc.getD j 0 := by
  intro cells
  induction cells with
  | nil =>
      intro acc _ j
      cases acc <;> rfl
  | cons c cs ih =>
      intro acc hle j
      cases acc with
      | nil => simp at hle
      | cons m ms =>
          cases j with
          | zero =>
              show (if c.length > m then c.length else m) = max m c.length
              by_cases h : c.length > m
              · simp only [if_pos h]
                omega
              · simp only [if_neg h]
                omega
          | succ j =>
              show (mergeRow ms cs).getD j 0 = _
              rw [ih ms (by simpa using hle) j]
              rfl

/-- A leading separator contributes no cell length to any column. -/
theorem colCellLens_cons_none (rest : List (Option (List String))) (j : Nat) :
    colCellLens (none :: rest) j = colCellLens rest j := rfl

/-- A leading row without a cell at column `j` contributes no cell
length there. -/
theorem colCellLens_cons_some_none (row : List String) (rest : List (Option (List String)))
    (j : Nat) (hgj : row.get? j = none) :
    colCellLens (some row :: rest) j = colCellLens rest j := by
  unfold colCellLens
  rw [List.filterMap_cons]
  have hb : ((some row).bind fun cells => (cells.get? j).map String.length) = none := by
    show (row.get? j).map String.length = none
    rw [hgj]
    rfl
  rw [hb]

/-- A leading row with a cell at column `j` contributes that cell's
length first. -/
theorem colCellLens_cons_some_some (row : List String) (rest : List (Option (List String)))
    (j : Nat) (c : String) (hgj : row.get? j = some c) :
    colCellLens (some row :: rest) j = c.length :: colCellLens rest j := by
  unfold colCellLens
  rw [List.filterMap_cons]
  have hb : ((some row).bind fun cells => (cells.get? j).map String.length) = some c.length := by
    show (row.get? j).map String.length = some c.length
    rw [hgj]
    rfl
  rw [hb]

/-- Success and pointwise characterisation of the fold of the
width-bumping pass: when every non-separator row fits within the
tracked columns, the fold succeeds, keeps the column count, and each
final width is the running maximum of the cell lengths present at that
column. -/
theorem foldMaxlens_spec :
    ∀ (data : List (Option (List String))) (acc : List Nat),
      (∀ cells, some cells ∈ data → cells.length ≤ acc.length) →
      ∃ res, foldMaxlens acc data = some res ∧ res.length = acc.length ∧
        ∀ j, res.getD j 0 = (colCellLens data j).foldl max (acc.getD j 0) := by
  intro data
  induction data with
  | nil =>
      intro acc _
      exact ⟨acc, rfl, rfl, fun j => rfl⟩
  | cons row rest ih =>
      intro acc hbound
      cases row with
      | none =>
          obtain ⟨res, hfold, hlen, hget⟩ :=
            ih acc (fun cells hm => hbound cells (List.mem_cons_of_mem _ hm))
          exact ⟨res, hfold, hlen, fun j => hget j⟩
      | some row =>
          have hrow : row.length ≤ acc.length := hbound row (List.mem_cons_self _ _)
          obtain ⟨res, hfold, hlen, hget⟩ :=
            ih (mergeRow acc row) (fun cells hm => by
              rw [mergeRow_length]
              exact hbound cells (List.mem_cons_of_mem _ hm))
          refine ⟨res, ?_, by rw [hlen, mergeRow_length], ?_⟩
          · show (match updateRow acc row with
              | none => none
              | some acc2 => foldMaxlens acc2 rest) = some res
            rw [updateRow_eq_mergeRow row acc hrow]
            exact hfold
          · intro j
            rw [hget j, mergeRow_getD row acc hrow j]
            cases hgj : row.get? j with
            | none =>
                rw [colCellLens_cons_some_none row rest j hgj]
            | some c =>
                rw [colCellLens_cons_some_some row rest j c hgj]
                rfl

/-- Every element of a nonempty list is bounded by the running
`foldl max`. -/
theorem le_foldl_max :
    ∀ (xs : List Nat) (x a : Nat), a ∈ x :: xs → a ≤ xs.foldl max x := by
  intro xs
  induction xs with
  | nil =>
      intro x a ha
      rcases List.mem_singleton.mp ha with rfl
      exact Nat.le_refl a
  | cons y ys ih =>
      intro x a ha
      show a ≤ ys.foldl max (max x y)
      rcases List.mem_cons.mp ha with rfl | hm
      · exact Nat.le_trans (Nat.le_max_left a y) (ih (max a y) _ (List.mem_cons_self _ _))
      · rcases List.mem_cons.mp hm with rfl | hm2
        · exact Nat.le_trans (Nat.le_max_right x a) (ih (max x a) _ (List.mem_cons_self _ _))
        · exact ih (max x y) a (List.mem_cons_of_mem _ hm2)

/-- The computed column count bounds the cell count of every
non-separator row. -/
theorem colcountOf_bound (data : List (Option (List String))) (c : Nat)
    (hc : colcountOf data = some c) :
    ∀ cells, some cells ∈ data → cells.length ≤ c := by
  intro cells hm
  unfold colcountOf at hc
  cases hmap : (data.filterMap id).map List.length with
  | nil => rw [hmap] at hc; cases hc
  | cons x xs =>
      rw [hmap] at hc
      injection hc with hc
      have hmem : cells ∈ data.filterMap id := List.mem_filterMap.mpr ⟨some cells, hm, rfl⟩
      have hlenmem : cells.length ∈ x :: xs := by
        rw [← hmap]
        exact List.mem_map_of_mem List.length hmem
      rw [← hc]
      exact le_foldl_max xs x cells.length hlenmem

/-- A table with at least one non-separator row has a column count. -/
theorem colcountOf_isSome (data : List (Option (List String)))
    (hne : data.any Option.isSome = true) :
    ∃ c, colcountOf data = some c := by
  obtain ⟨o, ho, hsome⟩ := List.any_eq_true.mp hne
  cases o with
  | none => simp at hsome
  | some cells =>
      have hmem : cells ∈ data.filterMap id := List.mem_filterMap.mpr ⟨some cells, ho, rfl⟩
      unfold colcountOf
      cases hmap : (data.filterMap id).map List.length with
      | nil =>
          rw [List.map_eq_nil_iff] at hmap
          rw [hmap] at hmem
          cases hmem
      | cons x xs => exact ⟨xs.foldl max x, rfl⟩

/-- C7: on every row sequence holding at least one non-separator row the
renderer succeeds, even when rows have unequal cell counts: the width of
each column is the maximum cell length over the rows that have a cell at
that index, and every row contributes only its present cells (the
rendering zips each row with the widths, truncating at the shorter).
No input of this shape makes the renderer fail. -/
theorem claim7_renderer_uneven_rows (data : List (Option (List String)))
    (rjust : List Nat) (hne : data.any Option.isSome = true) :
    ∃ maxlens, maxlensOf data = some maxlens
      ∧ (∀ j, maxlens.getD j 0 = specWidth data j)
      ∧ ∃ s, format_pretty_table data rjust = some s := by
  obtain ⟨c, hc⟩ := colcountOf_isSome data hne
  have hbound := colcountOf_bound data c hc
  obtain ⟨res, hfold, hlen, hget⟩ :=
    foldMaxlens_spec data (List.replicate c 0) (fun cells hm => by
      rw [List.length_replicate]
      exact hbound cells hm)
  have hml : maxlensOf data = some res := by
    unfold maxlensOf
    rw [hc]
    exact hfold
  refine ⟨res, hml, ?_, ?_⟩
  · intro j
    rw [hget j]
    have hrep : (List.replicate c 0).getD j 0 = 0 := by
      rw [List.getD_eq_getElem?_getD, List.getElem?_replicate]
      cases Nat.decLt j c with
      | isTrue h => simp [h]
      | isFalse h => simp [h]
    rw [hrep]
    rfl
  · unfold format_pretty_table format_pretty_lines
    rw [hml]
    exact ⟨_, rfl⟩

/-- Witness for C7 at a table with uneven cell counts. -/
theorem claim7_renderer_uneven_rows_witness :
    unevenTable.any Option.isSome = true
    ∧ ∃ maxlens, maxlensOf unevenTable = some maxlens
        ∧ (∀ j, maxlens.getD j 0 = specWidth unevenTable j)
        ∧ ∃ s, format_pretty_table unevenTable [1] = some s :=
  ⟨by decide, claim7_renderer_uneven_rows unevenTable [1] (by decide)⟩

/-! ### Separator rows -/

/-- Length of a Python join: the cell lengths plus one separator between
consecutive parts. -/
theorem pyJoin_length (sep : String) :
    ∀ parts : List String,
      (pyJoin sep parts).length = (parts.map String.length).sum + sep.length * (parts.length - 1) := by
  intro parts
  induction parts with
  | nil => rfl
  | cons x t ih =>
      cases t with
      | nil => simp [pyJoin]
      | cons y rest =>
          show (x ++ sep ++ pyJoin sep (y :: rest)).length = _
          rw [String.length_append, String.length_append, ih]
          simp only [List.map_cons, List.sum_cons, List.length_cons, Nat.succ_sub_one]
          rw [Nat.mul_succ]
          omega

/-- A dash run has the width it was asked for. -/
theorem dashRun_length (w : Nat) : (String.mk (List.replicate w '-')).length = w := by
  rw [String.length_mk, List.length_replicate]

/-- The separator line's length is the sum of the column widths plus one
`|` between consecutive columns. -/
theorem sepLine_length (ws : List Nat) :
    (sepLine ws).length = ws.sum + (ws.length - 1) := by
  unfold sepLine
  rw [pyJoin_length]
  have hmap : (ws.map (fun width => String.mk (List.replicate width '-'))).map String.length = ws := by
    rw [List.map_map]
    have : (String.length ∘ fun width => String.mk (List.replicate width '-')) = id := by
      funext w
      exact dashRun_length w
    rw [this, List.map_id]
  rw [hmap, List.length_map]
  have : ("|" : String).length = 1 := rfl
  rw [this, Nat.one_mul]

/-- C8: a separator marker renders as runs of `-` of each column's
width joined by `|`, so the rendered separator row's total length is the
sum of all column widths plus the column count minus one. -/
theorem claim8_separator_row (data : List (Option (List String))) (rjust : List Nat)
    (k : Nat) (maxlens : List Nat) (lines : List String)
    (hm : maxlensOf data = some maxlens)
    (hl : format_pretty_lines data rjust = some lines)
    (hk : data.get? k = some none) :
    lines.get? k = some (sepLine maxlens)
    ∧ (sepLine maxlens).length = maxlens.sum + (maxlens.length - 1) := by
  constructor
  · unfold format_pretty_lines at hl
    rw [hm] at hl
    injection hl with hl
    rw [← hl, List.get?_map, hk]
    rfl
  · exact sepLine_length maxlens

/-- Witness for C8 at the concrete uneven table, whose separator row is
`"----|-"` of length `6 = (4 + 1) + (2 - 1)`. -/
theorem claim8_separator_row_witness :
    maxlensOf unevenTable = some [4, 1]
    ∧ format_pretty_lines unevenTable [] = some ["ab  |c", "----|-", "defg"]
    ∧ unevenTable.get? 1 = some none
    ∧ (["ab  |c", "----|-", "defg"].get? 1 = some (sepLine [4, 1])
       ∧ (sepLine [4, 1]).length = [4, 1].sum + (([4, 1] : List Nat).length - 1)) :=
  ⟨by decide, by decide, by decide,
   claim8_separator_row unevenTable [] 1 [4, 1] ["ab  |c", "----|-", "defg"]
     (by decide) (by decide) (by decide)⟩

end AnyPython
